import Mathlib

/-!
# Verification of the Realm query-engine core (query_engine.cpp, mixed.cpp, obj.cpp, list.cpp)

A shallow embedding of the condition-node protocol of the Realm query engine:
`ParentNode::find_first`, the `NotNode` cached-range heuristic, indexed string
equality, multi-needle fusion, `Mixed::compare`, `LinkMap::map_links` and
`Obj::add_int`.  Rows are `Nat` (C++ `size_t`), object keys are `Int`
(C++ `ObjKey`, a signed 64-bit value), and `not_found` is the distinguished
sentinel `size_t(-1)`.
-/

namespace RealmQuery

/-- `realm::not_found` = `npos` = `size_t(-1)`. -/
def notFound : Nat := 2 ^ 64 - 1

/-- Scan rows `start, start+1, …` for `n` steps looking for the first row
satisfying `p`; `notFound` when none does.  This is the semantics of a leaf
condition node's `find_first_local` over a column predicate, and also of
`NotNode::find_first_loop` (query_engine.cpp) with `p = evaluate_at`. -/
def firstMatchFrom (p : Nat → Bool) : Nat → Nat → Nat
  | _, 0 => notFound
  | start, n + 1 => if p start then start else firstMatchFrom p (start + 1) n

/-- First row in `[start, e)` satisfying `p`, else `notFound`. -/
def firstMatch (p : Nat → Bool) (start e : Nat) : Nat :=
  firstMatchFrom p start (e - start)

theorem firstMatchFrom_char (p : Nat → Bool) :
    ∀ n start, firstMatchFrom p start n = notFound ∨
      (start ≤ firstMatchFrom p start n ∧ firstMatchFrom p start n < start + n ∧
        p (firstMatchFrom p start n) = true) := by
  intro n
  induction n with
  | zero => intro start; exact Or.inl rfl
  | succ m ih =>
    intro start
    by_cases h : p start
    · right
      simp [firstMatchFrom, h]
    · have hps : p start = false := by simpa using h
      have := ih (start + 1)
      simp only [firstMatchFrom, hps, Bool.false_eq_true, if_false]
      rcases this with h1 | ⟨h1, h2, h3⟩
      · exact Or.inl h1
      · exact Or.inr ⟨by omega, by omega, h3⟩

/-- Characterization of `firstMatch`: the result is `notFound` or a row of
`[start, e)` satisfying `p`. -/
theorem firstMatch_char (p : Nat → Bool) (start e : Nat) :
    firstMatch p start e = notFound ∨
      (start ≤ firstMatch p start e ∧ firstMatch p start e < e ∧
        p (firstMatch p start e) = true) := by
  rcases firstMatchFrom_char p (e - start) start with h | ⟨h1, h2, h3⟩
  · exact Or.inl h
  · right
    refine ⟨h1, ?_, h3⟩
    unfold firstMatch
    omega

theorem firstMatchFrom_min (p : Nat → Bool) :
    ∀ n start r, start ≤ r → r < start + n → r < firstMatchFrom p start n →
      p r = false := by
  intro n
  induction n with
  | zero => intro start r _ h2 _; omega
  | succ m ih =>
    intro start r h1 h2 h3
    by_cases h : p start
    · simp [firstMatchFrom, h] at h3; omega
    · have hps : p start = false := by simpa using h
      simp only [firstMatchFrom, hps, Bool.false_eq_true, if_false] at h3
      rcases Nat.eq_or_lt_of_le h1 with rfl | hlt
      · simpa using h
      · exact ih (start + 1) r hlt (by omega) h3

/-- Minimality: rows of `[start, e)` strictly before the result do not satisfy `p`. -/
theorem firstMatch_min (p : Nat → Bool) (start e r : Nat) (h1 : start ≤ r)
    (h2 : r < e) (h3 : r < firstMatch p start e) : p r = false :=
  firstMatchFrom_min p (e - start) start r h1 (by omega) h3

theorem firstMatch_of_ge (p : Nat → Bool) (start e : Nat) (h : e ≤ start) :
    firstMatch p start e = notFound := by
  unfold firstMatch
  have : e - start = 0 := by omega
  rw [this]
  rfl

theorem firstMatch_of_pos (p : Nat → Bool) (start e : Nat) (h1 : start < e)
    (h2 : p start = true) : firstMatch p start e = start := by
  unfold firstMatch
  have : e - start = (e - start - 1) + 1 := by omega
  rw [this]
  simp [firstMatchFrom, h2]

theorem firstMatch_of_none (p : Nat → Bool) (start e : Nat)
    (h : ∀ r, start ≤ r → r < e → p r = false) :
    firstMatch p start e = notFound := by
  rcases firstMatch_char p start e with h1 | ⟨h1, h2, h3⟩
  · exact h1
  · rw [h _ h1 h2] at h3; cases h3

/-- A row strictly below `e ≤ notFound` is distinct from the sentinel. -/
theorem ne_notFound_of_lt {r e : Nat} (h1 : r < e) (h2 : e ≤ notFound) :
    r ≠ notFound := by omega

theorem firstMatch_lt_of_ne (p : Nat → Bool) (start e : Nat)
    (h : firstMatch p start e ≠ notFound) :
    start ≤ firstMatch p start e ∧ firstMatch p start e < e ∧
      p (firstMatch p start e) = true := by
  rcases firstMatch_char p start e with h1 | h1
  · exact absurd h1 h
  · exact h1

/-- Skipping a prefix of rows known not to satisfy `p` does not change the result. -/
theorem firstMatch_skip (p : Nat → Bool) (s t e : Nat) (hst : s ≤ t)
    (h : ∀ r, s ≤ r → r < t → p r = false) :
    firstMatch p s e = firstMatch p t e := by
  induction t with
  | zero =>
    have : s = 0 := by omega
    rw [this]
  | succ m ih =>
    rcases Nat.eq_or_lt_of_le hst with rfl | hlt
    · rfl
    · have hsm : s ≤ m := by omega
      rw [ih hsm (fun r hr1 hr2 => h r hr1 (by omega))]
      by_cases hme : m < e
      · rw [firstMatch, firstMatch]
        have h1 : e - m = (e - (m + 1)) + 1 := by omega
        rw [h1]
        simp [firstMatchFrom, h m hsm (by omega)]
      · rw [firstMatch_of_ge p m e (by omega), firstMatch_of_ge p (m + 1) e (by omega)]

/-- `firstMatch` of a disjunction is the minimum of the two scans. -/
theorem firstMatch_or (p q : Nat → Bool) (start e : Nat) (he : e ≤ notFound) :
    firstMatch (fun r => p r || q r) start e =
      min (firstMatch p start e) (firstMatch q start e) := by
  rcases firstMatch_char (fun r => p r || q r) start e with h | ⟨h1, h2, h3⟩
  · rw [h]
    have hp : firstMatch p start e = notFound := by
      apply firstMatch_of_none
      intro r hr1 hr2
      have := firstMatch_min (fun r => p r || q r) start e r hr1 hr2 (by omega)
      simp only [Bool.or_eq_false_iff] at this
      exact this.1
    have hq : firstMatch q start e = notFound := by
      apply firstMatch_of_none
      intro r hr1 hr2
      have := firstMatch_min (fun r => p r || q r) start e r hr1 hr2 (by omega)
      simp only [Bool.or_eq_false_iff] at this
      exact this.2
    rw [hp, hq]
    simp
  · set m := firstMatch (fun r => p r || q r) start e with hm
    simp only [Bool.or_eq_true] at h3
    have hdead : ∀ r, start ≤ r → r < m → p r = false ∧ q r = false := by
      intro r hr1 hr2
      have := firstMatch_min (fun r => p r || q r) start e r hr1 (by omega) hr2
      simp only [Bool.or_eq_false_iff] at this
      exact this
    rcases h3 with h3 | h3
    · have hp : firstMatch p start e = m := by
        rw [firstMatch_skip p start m e h1 (fun r hr1 hr2 => (hdead r hr1 hr2).1)]
        exact firstMatch_of_pos p m e h2 h3
      have hq : m ≤ firstMatch q start e := by
        by_contra hc
        push_neg at hc
        have hq1 : firstMatch q start e ≠ notFound := by omega
        obtain ⟨hg1, hg2, hg3⟩ := firstMatch_lt_of_ne q start e hq1
        have := (hdead _ hg1 hc).2
        rw [hg3] at this; cases this
      omega
    · have hq : firstMatch q start e = m := by
        rw [firstMatch_skip q start m e h1 (fun r hr1 hr2 => (hdead r hr1 hr2).2)]
        exact firstMatch_of_pos q m e h2 h3
      have hp : m ≤ firstMatch p start e := by
        by_contra hc
        push_neg at hc
        have hp1 : firstMatch p start e ≠ notFound := by omega
        obtain ⟨hg1, hg2, hg3⟩ := firstMatch_lt_of_ne p start e hp1
        have := (hdead _ hg1 hc).1
        rw [hg3] at this; cases this
      omega

/-! ## ParentNode::find_first (query_engine.cpp, lines 41-68)

The conjunction loop over the children `m_children`.  Each child condition node
is embedded as a row predicate; per the node contract its `find_first_local`
is the canonical scan `firstMatch`.  The C++ `while` loop is written with an
explicit iteration bound (`fuel`); `parentFindFirst` supplies a bound large
enough that it is never exhausted (shown in the correctness proof). -/

/-- Row `r` satisfies every child condition of the conjunction. -/
def allMatch (cs : List (Nat → Bool)) (r : Nat) : Bool :=
  cs.all (fun p => p r)

/-- The body of `ParentNode::find_first`:
`m = m_children[current_cond]->find_first_local(start, end)`; when `m != start`
all conditions must be re-verified (`nb_cond_to_test = sz`) and `start`
advances to `m`; the loop returns `m` once `nb_cond_to_test` reaches zero, and
`current_cond` cycles through the children. -/
def parentLoop (cs : List (Nat → Bool)) : Nat → Nat → Nat → Nat → Nat → Nat
  | 0, _, _, _, _ => notFound
  | fuel + 1, start, e, cur, nb =>
    if start < e then
      if firstMatch (cs.getD cur (fun _ => false)) start e ≠ start then
        if cs.length - 1 = 0 then firstMatch (cs.getD cur (fun _ => false)) start e
        else
          parentLoop cs fuel (firstMatch (cs.getD cur (fun _ => false)) start e) e
            (if cur + 1 = cs.length then 0 else cur + 1) (cs.length - 1)
      else
        if nb - 1 = 0 then firstMatch (cs.getD cur (fun _ => false)) start e
        else parentLoop cs fuel start e (if cur + 1 = cs.length then 0 else cur + 1) (nb - 1)
    else notFound

/-- `ParentNode::find_first(start, end)`: run the loop from the first child
with all `cs.length` conditions pending. -/
def parentFindFirst (cs : List (Nat → Bool)) (start e : Nat) : Nat :=
  parentLoop cs ((e - start + 1) * (cs.length + 1)) start e 0 cs.length

theorem parentLoop_of_ge (cs : List (Nat → Bool)) (fuel start e cur nb : Nat)
    (h : e ≤ start) (hf : 0 < fuel) :
    parentLoop cs fuel start e cur nb = notFound := by
  cases fuel with
  | zero => omega
  | succ f =>
    simp only [parentLoop]
    rw [if_neg (by omega)]

theorem allMatch_getD (cs : List (Nat → Bool)) (r : Nat) :
    allMatch cs r = true ↔
      ∀ i, i < cs.length → cs.getD i (fun _ => false) r = true := by
  induction cs with
  | nil => simp [allMatch]
  | cons a l ih =>
    simp only [allMatch, List.all_cons, Bool.and_eq_true] at *
    constructor
    · rintro ⟨h1, h2⟩ i hi
      cases i with
      | zero => simpa using h1
      | succ j => simpa using (ih.mp h2) j (by simpa using hi)
    · intro h
      refine ⟨by simpa using h 0 (by simp), ih.mpr ?_⟩
      intro j hj
      simpa using h (j + 1) (by simpa using hj)

theorem allMatch_false_of_getD (cs : List (Nat → Bool)) (r i : Nat)
    (hi : i < cs.length) (h : cs.getD i (fun _ => false) r = false) :
    allMatch cs r = false := by
  by_contra hc
  have h1 : allMatch cs r = true := by
    cases hmr : allMatch cs r
    · exact absurd hmr hc
    · rfl
  rw [(allMatch_getD cs r).mp h1 i hi] at h
  cases h

theorem cyc_surj (sz cur i : Nat) (hcur : cur < sz) (hi : i < sz) :
    ∃ j, j < sz ∧ (cur + j) % sz = i := by
  by_cases h : cur ≤ i
  · refine ⟨i - cur, by omega, ?_⟩
    have h1 : cur + (i - cur) = i := by omega
    rw [h1]
    exact Nat.mod_eq_of_lt hi
  · refine ⟨sz - cur + i, by omega, ?_⟩
    have h1 : cur + (sz - cur + i) = sz + i := by omega
    rw [h1, Nat.add_mod_left]
    exact Nat.mod_eq_of_lt hi

theorem cyc_next (sz cur : Nat) (hcur : cur < sz) :
    (if cur + 1 = sz then 0 else cur + 1) = (cur + 1) % sz := by
  by_cases h : cur + 1 = sz
  · rw [if_pos h, h, Nat.mod_self]
  · rw [if_neg h, Nat.mod_eq_of_lt (by omega)]

/-- Correctness of the conjunction loop.  The invariant: the `cs.length - nb`
conditions cyclically preceding `cur` are already known to hold at `start`,
and no earlier row satisfies the conjunction (absorbed via `firstMatch_skip`
at each advance). -/
theorem parentLoop_correct (cs : List (Nat → Bool)) (e : Nat) (he : e ≤ notFound)
    (hsz : 0 < cs.length) :
    ∀ fuel start cur nb,
      cur < cs.length → 1 ≤ nb → nb ≤ cs.length →
      (∀ j, nb ≤ j → j < cs.length →
        cs.getD ((cur + j) % cs.length) (fun _ => false) start = true) →
      (e - start) * cs.length + nb < fuel →
      parentLoop cs fuel start e cur nb = firstMatch (allMatch cs) start e := by
  intro fuel
  induction fuel with
  | zero => intro start cur nb _ _ _ _ hf; omega
  | succ f ih =>
    intro start cur nb hcur hnb1 hnb2 hver hf
    by_cases hse : start < e
    · set sz := cs.length with hszdef
      set p := cs.getD cur (fun _ => false) with hp
      set m := firstMatch p start e with hm
      have hdead : ∀ r, start ≤ r → r < e → r < m → allMatch cs r = false := by
        intro r hr1 hr2 hr3
        refine allMatch_false_of_getD cs r cur (by omega) ?_
        rw [← hp]
        exact firstMatch_min p start e r hr1 hr2 (by omega)
      by_cases hms : m = start
      · -- the current condition matches at start
        have hpstart : p start = true := by
          rcases firstMatch_char p start e with h1 | ⟨_, _, h3⟩
          · rw [← hm, hms] at h1; omega
          · rw [← hm, hms] at h3; exact h3
        by_cases hnb0 : nb - 1 = 0
        · -- all conditions verified at start: return m = start
          have hall : allMatch cs start = true := by
            rw [allMatch_getD]
            intro i hi
            obtain ⟨j, hj1, hj2⟩ := cyc_surj sz cur i hcur (by omega)
            rcases Nat.eq_zero_or_pos j with rfl | hjpos
            · rw [← hj2, Nat.add_zero, Nat.mod_eq_of_lt hcur, ← hp]
              exact hpstart
            · rw [← hj2]
              exact hver j (by omega) (by omega)
          simp only [parentLoop, ← hszdef, ← hp, ← hm]
          rw [if_pos hse, if_neg (show ¬m ≠ start by simp [hms]), if_pos hnb0, hms,
            firstMatch_of_pos (allMatch cs) start e hse hall]
        · -- more conditions pending: next condition, same start
          simp only [parentLoop, ← hszdef, ← hp, ← hm]
          rw [if_pos hse, if_neg (show ¬m ≠ start by simp [hms]), if_neg hnb0]
          apply ih start (if cur + 1 = sz then 0 else cur + 1) (nb - 1)
          · rw [cyc_next sz cur hcur]
            exact Nat.mod_lt _ (by omega)
          · omega
          · omega
          · intro j hj1 hj2
            rw [cyc_next sz cur hcur, Nat.mod_add_mod]
            by_cases hjtop : j + 1 = sz
            · have h1 : cur + 1 + j = cur + sz := by omega
              rw [h1, Nat.add_mod_right, Nat.mod_eq_of_lt hcur, ← hp]
              exact hpstart
            · have h1 : cur + 1 + j = cur + (j + 1) := by omega
              rw [h1]
              exact hver (j + 1) (by omega) (by omega)
          · omega
      · -- the current condition does not match at start: start advances to m
        rcases firstMatch_char p start e with hnf | ⟨h1, h2, h3⟩
        · -- no match for this condition anywhere in [start, e): overall notFound
          have hmnf : m = notFound := hm.trans hnf
          have hmge : e ≤ m := by omega
          have hrhs : firstMatch (allMatch cs) start e = notFound := by
            apply firstMatch_of_none
            intro r hr1 hr2
            exact hdead r hr1 hr2 (by omega)
          by_cases hsz1 : sz - 1 = 0
          · simp only [parentLoop, ← hszdef, ← hp, ← hm]
            rw [if_pos hse, if_pos hms, if_pos hsz1, hmnf, hrhs]
          · simp only [parentLoop, ← hszdef, ← hp, ← hm]
            rw [if_pos hse, if_pos hms, if_neg hsz1,
              parentLoop_of_ge cs f m e _ _ hmge (by omega), hrhs]
        · -- m is the first match of the current condition, strictly above start
          rw [← hm] at h1 h2 h3
          have hslt : start < m := by omega
          have hskip : firstMatch (allMatch cs) start e = firstMatch (allMatch cs) m e :=
            firstMatch_skip (allMatch cs) start m e (by omega)
              (fun r hr1 hr2 => hdead r hr1 (by omega) hr2)
          by_cases hsz1 : sz - 1 = 0
          · -- a single condition: its first match is the answer
            have hsz1a : sz = 1 := by omega
            have hcur0 : cur = 0 := by omega
            have hall : allMatch cs = p := by
              obtain ⟨a, ha⟩ := List.length_eq_one.mp (hszdef ▸ hsz1a)
              funext r
              rw [hp, hcur0, ha]
              simp [allMatch]
            simp only [parentLoop, ← hszdef, ← hp, ← hm]
            rw [if_pos hse, if_pos hms, if_pos hsz1, hall]
          · simp only [parentLoop, ← hszdef, ← hp, ← hm]
            rw [if_pos hse, if_pos hms, if_neg hsz1, hskip]
            apply ih m (if cur + 1 = sz then 0 else cur + 1) (sz - 1)
            · rw [cyc_next sz cur hcur]
              exact Nat.mod_lt _ (by omega)
            · omega
            · omega
            · intro j hj1 hj2
              have hj : j = sz - 1 := by omega
              rw [cyc_next sz cur hcur, Nat.mod_add_mod, hj]
              have h4 : cur + 1 + (sz - 1) = cur + sz := by omega
              rw [h4, Nat.add_mod_right, Nat.mod_eq_of_lt hcur, ← hp]
              exact h3
            · -- fuel bound: start advanced by at least one row
              have hb1 : e - m ≤ e - start - 1 := by omega
              have hb2 : (e - m) * sz ≤ (e - start - 1) * sz :=
                Nat.mul_le_mul_right _ hb1
              have h5 : e - start - 1 + 1 = e - start := by omega
              have hb3 : (e - start) * sz = (e - start - 1) * sz + sz := by
                calc (e - start) * sz = (e - start - 1 + 1) * sz := by rw [h5]
                  _ = (e - start - 1) * sz + sz := by rw [Nat.succ_mul]
              omega
    · simp only [parentLoop]
      rw [if_neg hse, firstMatch_of_ge _ _ _ (by omega)]

/-- **C1**: for every conjunction of condition nodes and every row range
`[a, b)`, `ParentNode::find_first(a, b)` returns the smallest row `r` in
`[a, b)` at which every child node's `find_first_local` reports a match, and
returns `not_found` if no such row exists. -/
theorem C1_parent_find_first (cs : List (Nat → Bool)) (a b : Nat)
    (hcs : cs ≠ []) (hb : b ≤ notFound) :
    parentFindFirst cs a b = firstMatch (allMatch cs) a b := by
  have hsz : 0 < cs.length := List.length_pos.mpr hcs
  have e2 : (b - a + 1) * cs.length = (b - a) * cs.length + cs.length := Nat.succ_mul _ _
  have h1 : (b - a) * cs.length + cs.length < (b - a + 1) * (cs.length + 1) := by
    have e1 : (b - a + 1) * (cs.length + 1) = (b - a + 1) * cs.length + (b - a + 1) := by
      ring
    omega
  exact parentLoop_correct cs b hb hsz _ a 0 cs.length hsz (by omega) le_rfl
    (fun j hj1 hj2 => absurd hj2 (by omega)) h1

theorem C1_parent_find_first_witness :
    (([fun r => decide (r % 2 = 0), fun r => decide (3 < r)] : List (Nat → Bool)) ≠ [] ∧
      (10 : Nat) ≤ notFound) ∧
    parentFindFirst [fun r => decide (r % 2 = 0), fun r => decide (3 < r)] 1 10 =
      firstMatch (allMatch [fun r => decide (r % 2 = 0), fun r => decide (3 < r)]) 1 10 :=
  ⟨⟨List.cons_ne_nil _ _, by decide⟩,
    C1_parent_find_first _ 1 10 (List.cons_ne_nil _ _) (by decide)⟩

/-! ## NotNode (query_engine.cpp, lines 457-588)

`NotNode` negates an inner query (`m_condition`) and caches, over the most
recently scanned row range (`m_known_range_start .. m_known_range_end`), the
first row at which the negation holds (`m_first_in_known_range`).
`find_first_local` dispatches over the five relative positions of the request
against the known range.  The mutation of the three cached fields is made
explicit: every operation returns the result row together with the new state.
The node's match predicate `evaluate_at` is abstracted as `ev : Nat → Bool`
(instantiated with `evaluateAt` of the inner query's `find_first`). -/

/-- The cached state of a `NotNode`. -/
structure NotState where
  knownStart : Nat
  knownEnd : Nat
  firstInKnown : Nat
deriving Repr, DecidableEq

/-- `NotNode::evaluate_at(rowndx)`: the inner query's `find_first(rowndx,
rowndx+1)` reports no match.  `cond` is the inner query's `find_first`. -/
def evaluateAt (cond : Nat → Nat → Nat) (rowndx : Nat) : Bool :=
  cond rowndx (rowndx + 1) == notFound

/-- `NotNode::find_first_loop(start, end)`: scan `[start, end)` with
`evaluate_at`; this is exactly the canonical scan `firstMatch ev`. -/
def notFindFirstLoop (ev : Nat → Bool) (start e : Nat) : Nat :=
  firstMatch ev start e

/-- `NotNode::find_first_covers_known`: the request covers the known range.
Scan `[start, known_start)`; on failure reuse the cached match; otherwise
scan `[known_end, end)` and learn the whole requested range. -/
def findFirstCoversKnown (ev : Nat → Bool) (st : NotState) (start e : Nat) :
    Nat × NotState :=
  if notFindFirstLoop ev start st.knownStart ≠ notFound then
    (notFindFirstLoop ev start st.knownStart,
      ⟨start, st.knownEnd, notFindFirstLoop ev start st.knownStart⟩)
  else if st.firstInKnown ≠ notFound then
    (st.firstInKnown, ⟨start, st.knownEnd, st.firstInKnown⟩)
  else
    (notFindFirstLoop ev st.knownEnd e, ⟨start, e, notFindFirstLoop ev st.knownEnd e⟩)

/-- `NotNode::find_first_covered_by_known`: the known range covers the
request; the cache is not modified.  Note the strict comparison
`m_first_in_known_range > end` taken verbatim from the source. -/
def findFirstCoveredByKnown (ev : Nat → Bool) (st : NotState) (start e : Nat) :
    Nat × NotState :=
  if st.firstInKnown ≠ notFound then
    if st.firstInKnown > e then (notFound, st)
    else if st.firstInKnown ≥ start then (st.firstInKnown, st)
    else (notFindFirstLoop ev start e, st)
  else (notFindFirstLoop ev start e, st)

/-- `NotNode::find_first_overlap_lower`: partial overlap at the lower end.
The source computes `result = find_first_loop(start, known_start)`, falls back
to the cached match on failure, updates the cache, and bounds the return value
by `end`; the two branches below spell out the fallback. -/
def findFirstOverlapLower (ev : Nat → Bool) (st : NotState) (start e : Nat) :
    Nat × NotState :=
  if notFindFirstLoop ev start st.knownStart = notFound then
    ((if st.firstInKnown < e then st.firstInKnown else notFound),
      ⟨start, st.knownEnd, st.firstInKnown⟩)
  else
    ((if notFindFirstLoop ev start st.knownStart < e then
        notFindFirstLoop ev start st.knownStart
      else notFound),
      ⟨start, st.knownEnd, notFindFirstLoop ev start st.knownStart⟩)

/-- `NotNode::find_first_overlap_upper`: partial overlap at the upper end. -/
def findFirstOverlapUpper (ev : Nat → Bool) (st : NotState) (start e : Nat) :
    Nat × NotState :=
  if st.firstInKnown ≠ notFound then
    if st.firstInKnown ≥ start then
      (st.firstInKnown, ⟨st.knownStart, e, st.firstInKnown⟩)
    else (notFindFirstLoop ev start e, ⟨st.knownStart, e, st.firstInKnown⟩)
  else
    (notFindFirstLoop ev st.knownEnd e,
      ⟨st.knownStart, e, notFindFirstLoop ev st.knownEnd e⟩)

/-- `NotNode::find_first_no_overlap`: the request is disjoint from the known
range; scan it fully and replace the cache only if the new range is wider. -/
def findFirstNoOverlap (ev : Nat → Bool) (st : NotState) (start e : Nat) :
    Nat × NotState :=
  if e - start > st.knownEnd - st.knownStart then
    (notFindFirstLoop ev start e, ⟨start, e, notFindFirstLoop ev start e⟩)
  else (notFindFirstLoop ev start e, st)

/-- `NotNode::find_first_local(start, end)`: dispatch over the five relative
positions of `[start, end)` against the known range. -/
def notFindFirstLocal (ev : Nat → Bool) (st : NotState) (start e : Nat) :
    Nat × NotState :=
  if start ≤ st.knownStart ∧ e ≥ st.knownEnd then findFirstCoversKnown ev st start e
  else if start ≥ st.knownStart ∧ e ≤ st.knownEnd then
    findFirstCoveredByKnown ev st start e
  else if start < st.knownStart ∧ e ≥ st.knownStart then
    findFirstOverlapLower ev st start e
  else if start ≤ st.knownEnd ∧ e > st.knownEnd then findFirstOverlapUpper ev st start e
  else findFirstNoOverlap ev st start e

/-- The NotNode cache invariant (claim C10): the known range is well formed
(and, being a row range, sits below the sentinel), and the cached first match
is either `notFound` or a row inside the known range at which the negated
condition holds. -/
def NotInv (ev : Nat → Bool) (st : NotState) : Prop :=
  st.knownStart ≤ st.knownEnd ∧ st.knownEnd ≤ notFound ∧
    (st.firstInKnown = notFound ∨
      (st.knownStart ≤ st.firstInKnown ∧ st.firstInKnown < st.knownEnd ∧
        ev st.firstInKnown = true))

theorem notFindFirstLoop_mem (ev : Nat → Bool) (s t : Nat)
    (h : notFindFirstLoop ev s t ≠ notFound) :
    s ≤ notFindFirstLoop ev s t ∧ notFindFirstLoop ev s t < t ∧
      ev (notFindFirstLoop ev s t) = true :=
  firstMatch_lt_of_ne ev s t h

theorem coversKnown_inv (ev : Nat → Bool) (st : NotState) (start e : Nat)
    (hst : NotInv ev st) (h1 : start ≤ st.knownStart) (h2 : st.knownEnd ≤ e)
    (he : e ≤ notFound) :
    NotInv ev (findFirstCoversKnown ev st start e).2 := by
  obtain ⟨hk1, hk2, hfk⟩ := hst
  unfold findFirstCoversKnown
  by_cases hr : notFindFirstLoop ev start st.knownStart = notFound
  · rw [if_neg (not_not_intro hr)]
    by_cases hf : st.firstInKnown ≠ notFound
    · rw [if_pos hf]
      dsimp only [NotInv]
      rcases hfk with hfk | ⟨hf1, hf2, hf3⟩
      · exact absurd hfk hf
      · exact ⟨by omega, hk2, Or.inr ⟨by omega, hf2, hf3⟩⟩
    · rw [if_neg hf]
      dsimp only [NotInv]
      by_cases hr2 : notFindFirstLoop ev st.knownEnd e = notFound
      · exact ⟨by omega, he, Or.inl hr2⟩
      · obtain ⟨hg1, hg2, hg3⟩ := notFindFirstLoop_mem ev st.knownEnd e hr2
        exact ⟨by omega, he, Or.inr ⟨by omega, hg2, hg3⟩⟩
  · rw [if_pos hr]
    dsimp only [NotInv]
    obtain ⟨hg1, hg2, hg3⟩ := notFindFirstLoop_mem ev start st.knownStart hr
    exact ⟨by omega, hk2, Or.inr ⟨by omega, by omega, hg3⟩⟩

theorem coveredByKnown_inv (ev : Nat → Bool) (st : NotState) (start e : Nat)
    (hst : NotInv ev st) :
    NotInv ev (findFirstCoveredByKnown ev st start e).2 := by
  unfold findFirstCoveredByKnown
  by_cases hf : st.firstInKnown ≠ notFound
  · rw [if_pos hf]
    by_cases hgt : st.firstInKnown > e
    · rw [if_pos hgt]; exact hst
    · rw [if_neg hgt]
      by_cases hge : st.firstInKnown ≥ start
      · rw [if_pos hge]; exact hst
      · rw [if_neg hge]; exact hst
  · rw [if_neg hf]; exact hst

theorem overlapLower_inv (ev : Nat → Bool) (st : NotState) (start e : Nat)
    (hst : NotInv ev st) (h1 : start < st.knownStart) :
    NotInv ev (findFirstOverlapLower ev st start e).2 := by
  obtain ⟨hk1, hk2, hfk⟩ := hst
  unfold findFirstOverlapLower
  by_cases hr : notFindFirstLoop ev start st.knownStart = notFound
  · rw [if_pos hr]
    dsimp only [NotInv]
    rcases hfk with hfk | ⟨hf1, hf2, hf3⟩
    · exact ⟨by omega, hk2, Or.inl hfk⟩
    · exact ⟨by omega, hk2, Or.inr ⟨by omega, hf2, hf3⟩⟩
  · rw [if_neg hr]
    dsimp only [NotInv]
    obtain ⟨hg1, hg2, hg3⟩ := notFindFirstLoop_mem ev start st.knownStart hr
    exact ⟨by omega, hk2, Or.inr ⟨by omega, by omega, hg3⟩⟩

theorem overlapUpper_inv (ev : Nat → Bool) (st : NotState) (start e : Nat)
    (hst : NotInv ev st) (h1 : st.knownEnd < e) (he : e ≤ notFound) :
    NotInv ev (findFirstOverlapUpper ev st start e).2 := by
  obtain ⟨hk1, hk2, hfk⟩ := hst
  unfold findFirstOverlapUpper
  by_cases hf : st.firstInKnown ≠ notFound
  · rw [if_pos hf]
    rcases hfk with hfk | ⟨hf1, hf2, hf3⟩
    · exact absurd hfk hf
    · by_cases hge : st.firstInKnown ≥ start
      · rw [if_pos hge]; dsimp only [NotInv]
        exact ⟨by omega, he, Or.inr ⟨hf1, by omega, hf3⟩⟩
      · rw [if_neg hge]; dsimp only [NotInv]
        exact ⟨by omega, he, Or.inr ⟨hf1, by omega, hf3⟩⟩
  · rw [if_neg hf]
    dsimp only [NotInv]
    by_cases hr : notFindFirstLoop ev st.knownEnd e = notFound
    · exact ⟨by omega, he, Or.inl hr⟩
    · obtain ⟨hg1, hg2, hg3⟩ := notFindFirstLoop_mem ev st.knownEnd e hr
      exact ⟨by omega, he, Or.inr ⟨by omega, hg2, hg3⟩⟩

theorem noOverlap_inv (ev : Nat → Bool) (st : NotState) (start e : Nat)
    (hst : NotInv ev st) (hse : start ≤ e) (he : e ≤ notFound) :
    NotInv ev (findFirstNoOverlap ev st start e).2 := by
  unfold findFirstNoOverlap
  by_cases hw : e - start > st.knownEnd - st.knownStart
  · rw [if_pos hw]
    dsimp only [NotInv]
    by_cases hr : notFindFirstLoop ev start e = notFound
    · exact ⟨hse, he, Or.inl hr⟩
    · obtain ⟨hg1, hg2, hg3⟩ := notFindFirstLoop_mem ev start e hr
      exact ⟨hse, he, Or.inr ⟨hg1, hg2, hg3⟩⟩
  · rw [if_neg hw]; exact hst

/-- **C10**: after every call to `NotNode::find_first_local` — through any of
the five case handlers and `update_known` — the cached state satisfies
`m_known_range_start ≤ m_known_range_end`, and `m_first_in_known_range` is
either `not_found` or a row inside the known range at which the negated
condition holds. -/
theorem C10_not_node_cache_invariant (ev : Nat → Bool) (st : NotState)
    (start e : Nat) (hst : NotInv ev st) (hse : start ≤ e) (he : e ≤ notFound) :
    NotInv ev (notFindFirstLocal ev st start e).2 := by
  have hk1 := hst.1
  unfold notFindFirstLocal
  by_cases h1 : start ≤ st.knownStart ∧ e ≥ st.knownEnd
  · rw [if_pos h1]; exact coversKnown_inv ev st start e hst h1.1 h1.2 he
  · rw [if_neg h1]
    by_cases h2 : start ≥ st.knownStart ∧ e ≤ st.knownEnd
    · rw [if_pos h2]; exact coveredByKnown_inv ev st start e hst
    · rw [if_neg h2]
      by_cases h3 : start < st.knownStart ∧ e ≥ st.knownStart
      · rw [if_pos h3]; exact overlapLower_inv ev st start e hst h3.1
      · rw [if_neg h3]
        by_cases h4 : start ≤ st.knownEnd ∧ e > st.knownEnd
        · rw [if_pos h4]; exact overlapUpper_inv ev st start e hst h4.2 he
        · rw [if_neg h4]; exact noOverlap_inv ev st start e hst hse he

theorem C10_not_node_cache_invariant_witness :
    (NotInv (fun r => decide (r = 3)) ⟨1, 4, 3⟩ ∧ (2 : Nat) ≤ 6 ∧ (6 : Nat) ≤ notFound) ∧
    NotInv (fun r => decide (r = 3))
      (notFindFirstLocal (fun r => decide (r = 3)) ⟨1, 4, 3⟩ 2 6).2 :=
  ⟨⟨⟨by decide, by decide, Or.inr (by decide)⟩, by decide, by decide⟩,
    C10_not_node_cache_invariant (fun r => decide (r = 3)) ⟨1, 4, 3⟩ 2 6
      ⟨by decide, by decide, Or.inr (by decide)⟩ (by decide) (by decide)⟩

/-- **C5**: on a request disjoint from the known range, `find_first_local`
scans the full requested range and replaces the cached range and cached first
match exactly when the requested range is strictly wider than the cached one;
otherwise the cache is unchanged. -/
theorem C5_not_node_disjoint_frame (ev : Nat → Bool) (st : NotState)
    (start e : Nat) (hk : st.knownStart ≤ st.knownEnd) (hse : start ≤ e)
    (hdisj : e < st.knownStart ∨ st.knownEnd < start) :
    (notFindFirstLocal ev st start e).1 = firstMatch ev start e ∧
    (notFindFirstLocal ev st start e).2 =
      (if st.knownEnd - st.knownStart < e - start then
        (⟨start, e, firstMatch ev start e⟩ : NotState)
      else st) := by
  have hroute : notFindFirstLocal ev st start e = findFirstNoOverlap ev st start e := by
    unfold notFindFirstLocal
    rw [if_neg (by omega), if_neg (by omega), if_neg (by omega), if_neg (by omega)]
  rw [hroute]
  unfold findFirstNoOverlap notFindFirstLoop
  by_cases hw : e - start > st.knownEnd - st.knownStart
  · rw [if_pos hw]
    exact ⟨rfl, by rw [if_pos (by omega)]⟩
  · rw [if_neg hw]
    exact ⟨rfl, by rw [if_neg (by omega)]⟩

theorem C5_not_node_disjoint_frame_witness :
    ((1 : Nat) ≤ 3 ∧ (4 : Nat) ≤ 9 ∧ ((9 : Nat) < 1 ∨ (3 : Nat) < 4)) ∧
    ((notFindFirstLocal (fun r => decide (r = 5)) ⟨1, 3, notFound⟩ 4 9).1 =
        firstMatch (fun r => decide (r = 5)) 4 9 ∧
      (notFindFirstLocal (fun r => decide (r = 5)) ⟨1, 3, notFound⟩ 4 9).2 =
        (if (3 : Nat) - 1 < 9 - 4 then
          (⟨4, 9, firstMatch (fun r => decide (r = 5)) 4 9⟩ : NotState)
        else ⟨1, 3, notFound⟩)) :=
  ⟨⟨by decide, by decide, Or.inr (by decide)⟩,
    C5_not_node_disjoint_frame (fun r => decide (r = 5)) ⟨1, 3, notFound⟩ 4 9
      (by decide) (by decide) (Or.inr (by decide))⟩

/-! ## The covered-by-known boundary (claims C2 and C6)

`NotNode::find_first_covered_by_known` tests `m_first_in_known_range > end`
with a strict comparison, so a cached first match *equal to* `end` is returned
even though `end` is exclusive.  The scenario below reaches such a cache
through ordinary calls: the inner query matches every row except row 5, the
`NotNode` first scans `[0, 10)` (learning first-in-known = 5), and is then
asked about `[2, 5)`. -/

/-- `ParentNode::find_first` for a query with a single (stateful) child: with
`sz = 1` the loop body returns the child's probe result `m` on the first
iteration (whether or not `m` advanced `start`), so the function reduces to a
single `find_first_local` call guarded by `start < end`. -/
def parentFindFirstOne {S : Type} (ffl : S → Nat → Nat → Nat × S) (st : S)
    (start e : Nat) : Nat × S :=
  if start < e then ffl st start e else (notFound, st)

/-- The inner query of the scenario: one condition node matching every row
except row 5. -/
def innerCond5 : Nat → Nat → Nat :=
  fun s e => parentFindFirst [fun r => decide (r ≠ 5)] s e

/-- `evaluate_at` of the NotNode wrapping `innerCond5`. -/
def notEv5 : Nat → Bool := evaluateAt innerCond5

/-- The NotNode cache after `find_first_local(0, 10)` from the fresh state. -/
def notState5 : NotState := (notFindFirstLocal notEv5 ⟨0, 0, notFound⟩ 0 10).2

/-- **C2** (code bug): the cache `(known range [0,10), first-in-known 5)` is
reached by a single `find_first_local(0, 10)` call from the fresh state, and
the subsequent `find_first_local(2, 5)` — dispatched to
`find_first_covered_by_known` — returns row 5, which is neither inside
`[2, 5)` nor `not_found`: the strict `m_first_in_known_range > end` test
admits the exclusive bound `end` itself. -/
theorem C2_not_node_returns_end :
    notState5 = ⟨0, 10, 5⟩ ∧
    (notFindFirstLocal notEv5 notState5 2 5).1 = 5 ∧
    ¬((notFindFirstLocal notEv5 notState5 2 5).1 < 5 ∨
      (notFindFirstLocal notEv5 notState5 2 5).1 = notFound) :=
  ⟨by decide, by decide, by decide⟩

/-- Row-match semantics of a single-predicate query: `find_first(r, r+1)`
reports a match. -/
def queryMatchesAt (cond : Nat → Nat → Nat) (r : Nat) : Bool :=
  !(cond r (r + 1) == notFound)

/-- `NOT(NOT(q))` at row `r`: the outer NotNode matches `r` iff the wrapped
query — the inner NotNode with cache `st` — has no match at `r`, where the
wrapped query's `find_first` is `ParentNode::find_first` over the single
stateful child `NotNode::find_first_local`. -/
def doubleNotMatchesAt (st : NotState) (r : Nat) : Bool :=
  (parentFindFirstOne (fun s a b => notFindFirstLocal notEv5 s a b) st r (r + 1)).1
    == notFound

/-- **C6** (code bug): with the inner `NotNode` in the reachable cache state
of `notState5`, the double negation disagrees with the inner query at row 4:
`q` matches row 4 (its value differs from 5), but `NOT(NOT(q))` reports no
match, because the inner `find_first_local(4, 5)` returns its cached first
non-match 5 = `end` instead of `not_found` (the C2 boundary slip), and the
outer node therefore believes `NOT q` matched. -/
theorem C6_double_negation_differs :
    queryMatchesAt innerCond5 4 = true ∧ doubleNotMatchesAt notState5 4 = false :=
  ⟨by decide, by decide⟩

/-! ## StringNode<Equal> multi-needle fusion (query_engine.cpp, lines 309-343)

Column values are `Option String`: `StringData` with its distinguished null.
`do_consume_condition` folds another equality node's value into this node's
owned needle set (`m_needles`, a `std::set<StringData>` — represented as a
duplicate-free list, membership being all that matters), seeding the set with
this node's own value on the first consumption.  `_find_first_local` scans the
leaf for the single value when no needles were consumed and otherwise runs the
multi-pattern haystack scan. -/

/-- Needle-set membership (`m_needles.count(v)`). -/
def memNeedle (ns : List (Option String)) (x : Option String) : Bool :=
  ns.any (fun v => x == v)

/-- `m_needles.insert(v)`: sets do not duplicate. -/
def insertNeedle (ns : List (Option String)) (v : Option String) :
    List (Option String) :=
  if memNeedle ns v then ns else ns ++ [v]

/-- `StringNode<Equal>::do_consume_condition`: seed with the own value if the
set is still empty, then insert the other node's value (a null `m_value`
inserts the null string). -/
def doConsumeCondition (value : Option String) (ns : List (Option String))
    (other : Option String) : List (Option String) :=
  insertNeedle (if ns.isEmpty then insertNeedle ns value else ns) other

/-- The needle set after the builder fuses the equality conditions `others`
(in order) into the node holding `value`. -/
def fusedNeedles (value : Option String) (others : List (Option String)) :
    List (Option String) :=
  others.foldl (doConsumeCondition value) []

/-- Modelled from the spec: `find_first_haystack<20>` (declared in
realm/query_conditions.hpp, which is not among the sources) performs a
Rabin–Karp-like multi-pattern scan of the haystack; semantically it returns
the first row of `[start, e)` whose value is among the needles. -/
def findFirstHaystack (leaf : Nat → Option String) (ns : List (Option String))
    (start e : Nat) : Nat :=
  firstMatch (fun r => memNeedle ns (leaf r)) start e

/-- `StringNode<Equal>::_find_first_local`: plain leaf scan for `m_value` when
`m_needles` is empty, else the haystack scan. -/
def stringEqualFindFirstLocal (leaf : Nat → Option String) (value : Option String)
    (ns : List (Option String)) (start e : Nat) : Nat :=
  if ns.isEmpty then firstMatch (fun r => leaf r == value) start e
  else findFirstHaystack leaf ns start e

/-- Modelled from the spec: the disjunction `x==v₁ OR x==v₂ OR …` of separate
equality nodes; under `find_first` a disjunction reports the earliest match of
its branches. -/
def orFindFirst (leaf : Nat → Option String) (vs : List (Option String))
    (start e : Nat) : Nat :=
  vs.foldr (fun v acc => min (firstMatch (fun r => leaf r == v) start e) acc) notFound

theorem orFindFirst_eq_any (leaf : Nat → Option String) (vs : List (Option String))
    (start e : Nat) (he : e ≤ notFound) :
    orFindFirst leaf vs start e =
      firstMatch (fun r => vs.any (fun v => leaf r == v)) start e := by
  induction vs with
  | nil =>
    unfold orFindFirst
    simp only [List.foldr_nil]
    exact (firstMatch_of_none _ start e (fun r _ _ => by simp)).symm
  | cons v l ih =>
    unfold orFindFirst at *
    simp only [List.foldr_cons]
    rw [ih, ← firstMatch_or _ _ start e he]
    congr 1

theorem memNeedle_insertNeedle (ns : List (Option String)) (v x : Option String) :
    memNeedle (insertNeedle ns v) x = (memNeedle ns x || x == v) := by
  unfold insertNeedle
  by_cases h : memNeedle ns v
  · rw [if_pos h]
    by_cases hxv : x == v
    · have hx : x = v := by simpa using hxv
      subst hx
      simp [h]
    · have hxv2 : (x == v) = false := by simpa using hxv
      simp [hxv2]
  · rw [if_neg h]
    unfold memNeedle
    simp [List.any_append]

theorem insertNeedle_ne_nil (ns : List (Option String)) (v : Option String) :
    insertNeedle ns v ≠ [] := by
  unfold insertNeedle
  by_cases h : memNeedle ns v
  · rw [if_pos h]
    intro hc
    subst hc
    simp [memNeedle] at h
  · rw [if_neg h]
    simp

theorem doConsume_of_ne_nil (value : Option String) (ns : List (Option String))
    (o : Option String) (hns : ns ≠ []) :
    doConsumeCondition value ns o = insertNeedle ns o := by
  unfold doConsumeCondition
  cases ns with
  | nil => exact absurd rfl hns
  | cons a l => rfl

theorem foldl_doConsume_ne_nil (value : Option String) (rest : List (Option String)) :
    ∀ ns, ns ≠ [] → rest.foldl (doConsumeCondition value) ns ≠ [] := by
  induction rest with
  | nil => intro ns h; simpa using h
  | cons o rest ih =>
    intro ns hns
    simp only [List.foldl_cons]
    rw [doConsume_of_ne_nil value ns o hns]
    exact ih _ (insertNeedle_ne_nil ns o)

theorem memNeedle_foldl (value : Option String) (rest : List (Option String)) :
    ∀ ns, ns ≠ [] → ∀ x,
      memNeedle (rest.foldl (doConsumeCondition value) ns) x =
        (memNeedle ns x || rest.any (fun v => x == v)) := by
  induction rest with
  | nil => intro ns _ x; simp
  | cons o rest ih =>
    intro ns hns x
    simp only [List.foldl_cons]
    rw [doConsume_of_ne_nil value ns o hns,
      ih (insertNeedle ns o) (insertNeedle_ne_nil ns o) x, memNeedle_insertNeedle]
    simp [List.any_cons, Bool.or_assoc]

theorem memNeedle_fused (value : Option String) (o : Option String)
    (rest : List (Option String)) (x : Option String) :
    memNeedle (fusedNeedles value (o :: rest)) x =
      (value :: o :: rest).any (fun v => x == v) := by
  unfold fusedNeedles
  simp only [List.foldl_cons]
  have h0 : doConsumeCondition value [] o = insertNeedle (insertNeedle [] value) o := by
    unfold doConsumeCondition
    rfl
  rw [h0, memNeedle_foldl value rest _ (insertNeedle_ne_nil _ _) x,
    memNeedle_insertNeedle, memNeedle_insertNeedle]
  simp [memNeedle, List.any_cons, Bool.or_assoc]

/-- **C3**: multi-needle fusion preserves semantics.  For every string column,
own value and equality values merged by `do_consume_condition`, the fused node
(which scans the haystack instead of the index) returns from `find_first`
exactly what the disjunction of the separate equality nodes returns — on every
range, hence the same rows in the same order. -/
theorem C3_multi_needle_fusion (leaf : Nat → Option String) (value : Option String)
    (others : List (Option String)) (start e : Nat) (he : e ≤ notFound) :
    stringEqualFindFirstLocal leaf value (fusedNeedles value others) start e =
      orFindFirst leaf (value :: others) start e := by
  rw [orFindFirst_eq_any leaf _ start e he]
  cases others with
  | nil =>
    unfold stringEqualFindFirstLocal fusedNeedles
    simp only [List.foldl_nil, List.isEmpty_nil, if_true]
    congr 1
    funext r
    simp
  | cons o rest =>
    unfold stringEqualFindFirstLocal
    have hne : fusedNeedles value (o :: rest) ≠ [] := by
      unfold fusedNeedles
      simp only [List.foldl_cons]
      have h0 : doConsumeCondition value [] o = insertNeedle (insertNeedle [] value) o :=
        rfl
      rw [h0]
      exact foldl_doConsume_ne_nil value rest _ (insertNeedle_ne_nil _ _)
    rw [if_neg (by simpa [List.isEmpty_iff] using hne)]
    unfold findFirstHaystack
    congr 1
    funext r
    exact memNeedle_fused value o rest (leaf r)

theorem C3_multi_needle_fusion_witness :
    ((4 : Nat) ≤ notFound) ∧
    stringEqualFindFirstLocal
        (fun r => if r = 0 then some "a" else if r = 1 then none else some "b")
        (some "b")
        (fusedNeedles (some "b") [none]) 0 4 =
      orFindFirst
        (fun r => if r = 0 then some "a" else if r = 1 then none else some "b")
        [some "b", none] 0 4 :=
  ⟨by decide,
    C3_multi_needle_fusion
      (fun r => if r = 0 then some "a" else if r = 1 then none else some "b")
      (some "b") [none] 0 4 (by decide)⟩

/-! ## StringNodeEqualBase::find_first_local (query_engine.cpp, lines 228-267)

The indexed branch (`m_has_search_index`).  The node holds a materialised
sorted key list (reachable through `get_key`), a cursor `m_results_ndx` into
`[m_results_start, m_results_end)`, the pending key `m_actual_key` and the
last-seen start key `m_last_start_key`.  Keys (`ObjKey`) are `Int`.  The three
mutable fields are threaded explicitly. -/

/-- The cursor of an index-backed string-equality node. -/
structure IdxState where
  resultsStart : Nat
  resultsEnd : Nat
  resultsNdx : Nat
  actualKey : Int
  lastStartKey : Int
deriving Repr, DecidableEq

/-- The cluster interface used by the scan: `get_real_key`, `get_offset` and
`lower_bound_key`. -/
structure ClusterIface where
  getRealKey : Nat → Int
  offset : Int
  lowerBoundKey : Int → Nat

/-- The null `ObjKey()` (value −1), assigned on a reset over an empty match
list (in which case the following guard fails and the key is never read). -/
def nullKeyValue : Int := -1

/-- The reset branch of the scan (`first_key < m_last_start_key`): "we are not
advancing through the clusters … start over from the beginning". -/
def resetCursor (getKey : Nat → Int) (st : IdxState) : IdxState :=
  { st with
    resultsNdx := st.resultsStart,
    actualKey :=
      if st.resultsStart ≠ st.resultsEnd then getKey st.resultsStart else nullKeyValue }

/-- The cursor-advance loop:
`while (first_key > m_actual_key) { m_results_ndx++; if (m_results_ndx ==
m_results_end) return not_found; m_actual_key = get_key(m_results_ndx); }`.
`fuel` bounds the iterations; the caller passes `resultsEnd - resultsNdx`,
which the loop cannot exhaust (each iteration returns or moves `ndx` one step
toward `resultsEnd`).  Returns `(found, ndx, actual)`. -/
def advanceCursor (getKey : Nat → Int) (firstKey : Int) (rEnd : Nat) :
    Nat → Nat → Int → Bool × Nat × Int
  | 0, ndx, actual => (false, ndx, actual)
  | fuel + 1, ndx, actual =>
    if firstKey > actual then
      if ndx + 1 = rEnd then (false, ndx + 1, actual)
      else advanceCursor getKey firstKey rEnd fuel (ndx + 1) (getKey (ndx + 1))
    else (true, ndx, actual)

/-- The body of the indexed scan after the range guard and cursor reset:
pending-key guard, advance loop, last-key test, `lower_bound_key`
translation. -/
def idxSearch (getKey : Nat → Int) (c : ClusterIface) (st : IdxState)
    (firstKey : Int) (e : Nat) : Nat × IdxState :=
  if st.resultsNdx < st.resultsEnd then
    match advanceCursor getKey firstKey st.resultsEnd (st.resultsEnd - st.resultsNdx)
        st.resultsNdx st.actualKey with
    | (false, ndx, actual) =>
      (notFound, { st with resultsNdx := ndx, actualKey := actual })
    | (true, ndx, actual) =>
      if actual > c.getRealKey (e - 1) then
        (notFound, { st with resultsNdx := ndx, actualKey := actual })
      else
        (c.lowerBoundKey (actual - c.offset),
          { st with resultsNdx := ndx, actualKey := actual })
  else (notFound, st)

/-- `StringNodeEqualBase::find_first_local(start, end)`, indexed branch. -/
def idxFindFirstLocal (getKey : Nat → Int) (c : ClusterIface) (st : IdxState)
    (start e : Nat) : Nat × IdxState :=
  if start < e then
    idxSearch getKey c
      { (if c.getRealKey start < st.lastStartKey then resetCursor getKey st else st) with
        lastStartKey := c.getRealKey start }
      (c.getRealKey start) e
  else (notFound, st)

/-- The least pending index `j` (searching `n` slots upward from `ndx`) whose
key is not below `firstKey`; `none` when the cursor runs off the match list. -/
def leastKeyGE (getKey : Nat → Int) (firstKey : Int) : Nat → Nat → Option Nat
  | _, 0 => none
  | ndx, n + 1 =>
    if getKey ndx < firstKey then leastKeyGE getKey firstKey (ndx + 1) n else some ndx

/-- The four steps of the specification (§4.1.1), as worded: (1) reset the
cursor when the first cluster key is below the last-seen start (remembering
the new start key); (2) advance the cursor to the first pending entry whose
key reaches the first cluster key; (3) `not_found` when the pending key
exceeds the key of row `end-1`; (4) else the cluster-local row via
`lower_bound_key` of the pending key minus the cluster offset. -/
def specIdxFindFirstLocal (getKey : Nat → Int) (c : ClusterIface) (st : IdxState)
    (start e : Nat) : Nat × IdxState :=
  if start < e then
    let st2 :=
      { (if c.getRealKey start < st.lastStartKey then resetCursor getKey st else st) with
        lastStartKey := c.getRealKey start }
    if st2.resultsNdx < st2.resultsEnd then
      match leastKeyGE getKey (c.getRealKey start) st2.resultsNdx
          (st2.resultsEnd - st2.resultsNdx) with
      | none =>
        (notFound,
          { st2 with resultsNdx := st2.resultsEnd, actualKey := getKey (st2.resultsEnd - 1) })
      | some j =>
        if getKey j > c.getRealKey (e - 1) then
          (notFound, { st2 with resultsNdx := j, actualKey := getKey j })
        else
          (c.lowerBoundKey (getKey j - c.offset),
            { st2 with resultsNdx := j, actualKey := getKey j })
    else (notFound, st2)
  else (notFound, st)

theorem advanceCursor_eq_leastKeyGE (getKey : Nat → Int) (firstKey : Int) (rEnd : Nat) :
    ∀ n ndx, ndx < rEnd → n = rEnd - ndx →
      advanceCursor getKey firstKey rEnd n ndx (getKey ndx) =
        (match leastKeyGE getKey firstKey ndx n with
          | none => (false, rEnd, getKey (rEnd - 1))
          | some j => (true, j, getKey j)) := by
  intro n
  induction n with
  | zero => intro ndx h1 h2; omega
  | succ k ih =>
    intro ndx h1 h2
    simp only [advanceCursor, leastKeyGE]
    by_cases hlt : getKey ndx < firstKey
    · rw [if_pos hlt, if_pos hlt]
      by_cases htop : ndx + 1 = rEnd
      · rw [if_pos htop]
        have hk : k = 0 := by omega
        subst hk
        simp only [leastKeyGE]
        rw [htop]
        have : rEnd - 1 = ndx := by omega
        rw [this]
      · rw [if_neg htop]
        exact ih (ndx + 1) (by omega) (by omega)
    · rw [if_neg hlt, if_neg hlt]

/-- **C4**: for an index-backed string-equality node with a consistent cursor
(the pending key is the key at the cursor), `find_first_local(start, end)`
follows exactly the four specified steps: reset on a non-monotonic range,
advance while the pending key is below the first cluster key, `not_found`
when the pending key exceeds the key of row `end-1`, else the cluster-local
row via `lower_bound_key` of the pending key minus the cluster offset. -/
theorem C4_indexed_string_equal_scan (getKey : Nat → Int) (c : ClusterIface)
    (st : IdxState) (start e : Nat)
    (hcons : st.resultsNdx < st.resultsEnd → st.actualKey = getKey st.resultsNdx) :
    idxFindFirstLocal getKey c st start e = specIdxFindFirstLocal getKey c st start e := by
  unfold idxFindFirstLocal specIdxFindFirstLocal
  by_cases hse : start < e
  · rw [if_pos hse, if_pos hse]
    set st2 :=
      { (if c.getRealKey start < st.lastStartKey then resetCursor getKey st else st) with
        lastStartKey := c.getRealKey start } with hst2
    have hc2 : st2.resultsNdx < st2.resultsEnd → st2.actualKey = getKey st2.resultsNdx := by
      rw [hst2]
      by_cases hr : c.getRealKey start < st.lastStartKey
      · rw [if_pos hr]
        unfold resetCursor
        dsimp only
        intro h
        rw [if_pos (by omega)]
      · rw [if_neg hr]
        exact hcons
    unfold idxSearch
    by_cases hnd : st2.resultsNdx < st2.resultsEnd
    · rw [if_pos hnd, if_pos hnd, hc2 hnd,
        advanceCursor_eq_leastKeyGE getKey (c.getRealKey start) st2.resultsEnd
          (st2.resultsEnd - st2.resultsNdx) st2.resultsNdx hnd rfl]
      cases hj : leastKeyGE getKey (c.getRealKey start) st2.resultsNdx
          (st2.resultsEnd - st2.resultsNdx) with
      | none => rfl
      | some j => rfl
    · rw [if_neg hnd, if_neg hnd]
  · rw [if_neg hse, if_neg hse]

theorem C4_indexed_string_equal_scan_witness :
    ((⟨0, 3, 0, 0, -1⟩ : IdxState).resultsNdx < (⟨0, 3, 0, 0, -1⟩ : IdxState).resultsEnd →
      (⟨0, 3, 0, 0, -1⟩ : IdxState).actualKey = (fun j => (j : Int)) 0) ∧
    idxFindFirstLocal (fun j => (j : Int)) ⟨fun r => (r : Int), 0, fun k => k.toNat⟩
        ⟨0, 3, 0, 0, -1⟩ 1 3 =
      specIdxFindFirstLocal (fun j => (j : Int)) ⟨fun r => (r : Int), 0, fun k => k.toNat⟩
        ⟨0, 3, 0, 0, -1⟩ 1 3 :=
  ⟨fun _ => by decide,
    C4_indexed_string_equal_scan (fun j => (j : Int))
      ⟨fun r => (r : Int), 0, fun k => k.toNat⟩ ⟨0, 3, 0, 0, -1⟩ 1 3 (fun _ => by decide)⟩

/-! ## Mixed::compare (mixed.cpp, lines 66-142)

Floats and doubles are represented by their IEEE-754 bit patterns (`Nat`
below `2^32` / `2^64`).  NaN classification follows the encoding (maximal
exponent, non-zero mantissa); the IEEE comparison of non-NaN values is an
order-embedding into `Nat` (negatives reflected below, the two zeros
identified), so `a_raw < b_raw` on non-NaN floats is `key a < key b`. -/

/-- IEEE-754 single precision: NaN = exponent all ones with non-zero mantissa. -/
def isNan32 (b : Nat) : Bool :=
  decide ((b / 2 ^ 23) % 2 ^ 8 = 2 ^ 8 - 1 ∧ b % 2 ^ 23 ≠ 0)

/-- IEEE-754 double precision NaN test. -/
def isNan64 (b : Nat) : Bool :=
  decide ((b / 2 ^ 52) % 2 ^ 11 = 2 ^ 11 - 1 ∧ b % 2 ^ 52 ≠ 0)

/-- Order-embedding of non-NaN single bit patterns: positives shifted above
`2^31`, negatives reflected, `+0` and `−0` mapped to the same key. -/
def ieeeKey32 (b : Nat) : Nat := if b < 2 ^ 31 then 2 ^ 31 + b else 2 ^ 32 - b

/-- Order-embedding of non-NaN double bit patterns. -/
def ieeeKey64 (b : Nat) : Nat := if b < 2 ^ 63 then 2 ^ 63 + b else 2 ^ 64 - b

/-- `_impl::compare_float` (mixed.cpp, lines 66-86): non-NaN values compare as
IEEE floats; two NaNs compare by their raw bit patterns as unsigned integers;
otherwise the NaN side is below. -/
def compareFloatBits (nan : Nat → Bool) (key : Nat → Nat) (a b : Nat) : Int :=
  if ¬ nan a ∧ ¬ nan b then
    if key a = key b then 0 else if key a < key b then -1 else 1
  else if nan a ∧ nan b then
    if a = b then 0 else if a < b then -1 else 1
  else if nan a then -1 else 1

def compareFloat32 (a b : Nat) : Int := compareFloatBits isNan32 ieeeKey32 a b

def compareFloat64 (a b : Nat) : Int := compareFloatBits isNan64 ieeeKey64 a b

/-- `_impl::compare_string` (mixed.cpp, lines 24-29): equality first, then the
collation order; the collation (`utf8_compare`, outside the sources) is taken
as lexicographic code-point order per the spec. -/
def compareStringV (a b : String) : Int :=
  if a = b then 0 else if a < b then -1 else 1

/-- `_impl::compare_binary` (mixed.cpp, lines 31-44): `memcmp` over the common
prefix, ties broken by size. -/
def compareBinaryV : List Nat → List Nat → Int
  | [], [] => 0
  | [], _ :: _ => -1
  | _ :: _, [] => 1
  | x :: xs, y :: ys =>
    if x < y then -1 else if y < x then 1 else compareBinaryV xs ys

/-- `Timestamp`: seconds and nanoseconds, ordered lexicographically
(`operator>` of realm/timestamp.hpp). -/
structure TimestampV where
  seconds : Int
  nanoseconds : Int
deriving Repr, DecidableEq

def timestampGt (x y : TimestampV) : Bool :=
  x.seconds > y.seconds || (x.seconds == y.seconds && x.nanoseconds > y.nanoseconds)

/-- `Mixed`: the tagged union over the value types handled by
`Mixed::compare`; `null` is the distinguished null of any type. -/
inductive MixedV where
  | null
  | int (v : Int)
  | str (v : String)
  | binary (v : List Nat)
  | float (bits : Nat)
  | double (bits : Nat)
  | bool (v : Bool)
  | timestamp (v : TimestampV)
  | link (v : Int)
deriving Repr, DecidableEq

/-- `Mixed::compare` (mixed.cpp, lines 89-142): nulls order below everything,
then the per-type comparison.  The C++ function reads `b.get<T>()` with this
operand's type, so it is meaningful only on same-type operands; a mismatched
pair is `none` here. -/
def MixedV.compare : MixedV → MixedV → Option Int
  | .null, .null => some 0
  | .null, _ => some (-1)
  | _, .null => some 1
  | .int a, .int b => some (if a > b then 1 else if a < b then -1 else 0)
  | .str a, .str b => some (compareStringV a b)
  | .binary a, .binary b => some (compareBinaryV a b)
  | .float a, .float b => some (compareFloat32 a b)
  | .double a, .double b => some (compareFloat64 a b)
  | .bool a, .bool b => some (if a > b then 1 else if a < b then -1 else 0)
  | .timestamp a, .timestamp b =>
    some (if timestampGt a b then 1 else if timestampGt b a then -1 else 0)
  | .link a, .link b => some (if a > b then 1 else if a < b then -1 else 0)
  | _, _ => none

/-- **C7**: value comparison orders null below every non-null value for all
value types; any NaN float/double orders below every non-NaN value; and two
NaNs compare by their raw bit patterns interpreted as unsigned integers. -/
theorem C7_null_and_nan_ordering :
    (∀ m : MixedV, m ≠ .null →
      MixedV.compare .null m = some (-1) ∧ MixedV.compare m .null = some 1) ∧
    (∀ a b : Nat, isNan64 a = true → isNan64 b = false →
      MixedV.compare (.double a) (.double b) = some (-1) ∧
      MixedV.compare (.double b) (.double a) = some 1) ∧
    (∀ a b : Nat, isNan32 a = true → isNan32 b = false →
      MixedV.compare (.float a) (.float b) = some (-1) ∧
      MixedV.compare (.float b) (.float a) = some 1) ∧
    (∀ a b : Nat, isNan64 a = true → isNan64 b = true →
      MixedV.compare (.double a) (.double b) =
        some (if a = b then 0 else if a < b then -1 else 1)) ∧
    (∀ a b : Nat, isNan32 a = true → isNan32 b = true →
      MixedV.compare (.float a) (.float b) =
        some (if a = b then 0 else if a < b then -1 else 1)) := by
  refine ⟨?_, ?_, ?_, ?_, ?_⟩
  · intro m hm
    cases m with
    | null => exact absurd rfl hm
    | int v => exact ⟨rfl, rfl⟩
    | str v => exact ⟨rfl, rfl⟩
    | binary v => exact ⟨rfl, rfl⟩
    | float v => exact ⟨rfl, rfl⟩
    | double v => exact ⟨rfl, rfl⟩
    | bool v => exact ⟨rfl, rfl⟩
    | timestamp v => exact ⟨rfl, rfl⟩
    | link v => exact ⟨rfl, rfl⟩
  · intro a b ha hb
    constructor <;>
      simp [MixedV.compare, compareFloat64, compareFloatBits, ha, hb]
  · intro a b ha hb
    constructor <;>
      simp [MixedV.compare, compareFloat32, compareFloatBits, ha, hb]
  · intro a b ha hb
    simp [MixedV.compare, compareFloat64, compareFloatBits, ha, hb]
  · intro a b ha hb
    simp [MixedV.compare, compareFloat32, compareFloatBits, ha, hb]

theorem C7_null_and_nan_ordering_witness :
    ((MixedV.int 7 ≠ MixedV.null) ∧
      isNan64 0x7FF0000000000001 = true ∧ isNan64 0x3FF0000000000000 = false ∧
      isNan64 0x7FF0000000000002 = true) ∧
    (MixedV.compare .null (.int 7) = some (-1) ∧
      MixedV.compare (.int 7) .null = some 1) ∧
    (MixedV.compare (.double 0x7FF0000000000001) (.double 0x3FF0000000000000) =
        some (-1) ∧
      MixedV.compare (.double 0x3FF0000000000000) (.double 0x7FF0000000000001) =
        some 1) ∧
    MixedV.compare (.double 0x7FF0000000000001) (.double 0x7FF0000000000002) =
      some (if (0x7FF0000000000001 : Nat) = 0x7FF0000000000002 then 0
        else if (0x7FF0000000000001 : Nat) < 0x7FF0000000000002 then -1 else 1) :=
  ⟨⟨by decide, by decide, by decide, by decide⟩,
    C7_null_and_nan_ordering.1 (.int 7) (by decide),
    C7_null_and_nan_ordering.2.1 0x7FF0000000000001 0x3FF0000000000000
      (by decide) (by decide),
    C7_null_and_nan_ordering.2.2.2.1 0x7FF0000000000001 0x7FF0000000000002
      (by decide) (by decide)⟩

/-! ## LinkMap::map_links (list.cpp, lines 871-964)

A chain of hops; object keys are `Int`.  A single link yields at most one
forward key (a null link is skipped); list links and backlinks yield their
keys in order.  The visitor (`LinkMapFunction::consume`) is stateful:
`S → Int → S × Bool`, `false` requesting termination.  In the source the
`return` after a `false` at the *last* hop exits only the current `map_links`
activation; the enclosing hop's loop calls `map_links(column+1, …)` without
inspecting any termination status, so the loop simply continues — the
embedding mirrors this with a plain fold (`iterateKeys`) for non-last hops
and an early-exit loop (`consumeKeys`) for the last hop. -/

/-- One hop of a link chain. -/
inductive Hop where
  | single (f : Int → Option Int)
  | list (f : Int → List Int)
  | backlink (f : Int → List Int)

/-- The last-hop loop: `consume` each key, stopping when it returns `false`. -/
def consumeKeys {S : Type} (v : S → Int → S × Bool) : List Int → S → S
  | [], s => s
  | k :: ks, s =>
    match v s k with
    | (s2, true) => consumeKeys v ks s2
    | (s2, false) => s2

/-- The non-last-hop loop: recurse into the rest of the chain for each key;
the recursion's outcome is not consulted, the loop always continues. -/
def iterateKeys {S : Type} (next : Int → S → S) : List Int → S → S
  | [], s => s
  | k :: ks, s => iterateKeys next ks (next k s)

/-- `LinkMap::map_links(column, key, lm)`: dispatch on the hop kind and on
whether this is the last hop of the chain. -/
def mapLinks {S : Type} (v : S → Int → S × Bool) : List Hop → Int → S → S
  | [], _, s => s
  | [h], key, s =>
    match h with
    | .single f =>
      match f key with
      | some k => (v s k).1
      | none => s
    | .list f => consumeKeys v (f key) s
    | .backlink f => consumeKeys v (f key) s
  | h :: h2 :: hs, key, s =>
    match h with
    | .single f =>
      match f key with
      | some k => mapLinks v (h2 :: hs) k s
      | none => s
    | .list f => iterateKeys (fun k s2 => mapLinks v (h2 :: hs) k s2) (f key) s
    | .backlink f => iterateKeys (fun k s2 => mapLinks v (h2 :: hs) k s2) (f key) s
termination_by hops => hops.length

/-- Instrumentation: wrap a visitor so the traversal also records, in order,
every key passed to `consume` together with the flag it returned. -/
def traceVisitor {S : Type} (g : S → Int → S × Bool) :
    S × List (Int × Bool) → Int → (S × List (Int × Bool)) × Bool :=
  fun st k =>
    match g st.1 k with
    | (s2, cont) => ((s2, st.2 ++ [(k, cont)]), cont)

/-- The sequence of `consume` calls (key, returned flag) made by a traversal. -/
def traceOf {S : Type} (g : S → Int → S × Bool) (hops : List Hop) (key : Int)
    (s0 : S) : List (Int × Bool) :=
  (mapLinks (traceVisitor g) hops key (s0, [])).2

/-- No key reaches the visitor after it has returned `false`: every trace
entry except possibly the last carries `true`. -/
def stopsAfterFalse (tr : List (Int × Bool)) : Bool :=
  tr.dropLast.all (fun entry => entry.2)

/-- **C8 counterexample**: in the two-hop chain of list links below, a visitor
that returns `false` on every key is handed key 10 (returning `false`) and
then still key 20 — returning `false` terminates only the innermost loop, not
the enclosing hop's loop. -/
theorem C8_map_links_counterexample :
    traceOf (fun (_ : Unit) (_ : Int) => ((), false))
        [Hop.list (fun _ => [1, 2]), Hop.list (fun k => [10 * k])] 0 () =
      [(10, false), (20, false)] ∧
    stopsAfterFalse (traceOf (fun (_ : Unit) (_ : Int) => ((), false))
        [Hop.list (fun _ => [1, 2]), Hop.list (fun k => [10 * k])] 0 ()) = false := by
  constructor
  · simp [traceOf, mapLinks, iterateKeys, consumeKeys, traceVisitor]
  · simp [traceOf, mapLinks, iterateKeys, consumeKeys, traceVisitor, stopsAfterFalse]

theorem consumeKeys_trace_stops {S : Type} (g : S → Int → S × Bool) :
    ∀ (ks : List Int) (s : S) (tr : List (Int × Bool)),
      tr.all (fun entry => entry.2) = true →
      stopsAfterFalse ((consumeKeys (traceVisitor g) ks (s, tr)).2) = true := by
  intro ks
  induction ks with
  | nil =>
    intro s tr htr
    unfold consumeKeys stopsAfterFalse
    exact List.all_eq_true.mpr fun x hx =>
      List.all_eq_true.mp htr x (List.dropLast_subset _ hx)
  | cons k ks ih =>
    intro s tr htr
    unfold consumeKeys traceVisitor
    cases hg : g s k with
    | mk s2 cont =>
      cases cont with
      | true =>
        dsimp only
        apply ih
        rw [List.all_append, htr]
        rfl
      | false =>
        dsimp only [stopsAfterFalse]
        rw [List.dropLast_concat]
        exact htr

/-- **C8** amended: returning `false` terminates the enumeration of the final
hop — in a single-hop traversal (of any hop kind) no key reaches the visitor
after it returns `false`.  (In multi-hop chains the enclosing loops continue,
as the counterexample shows.) -/
theorem C8_map_links_single_hop_stops {S : Type} (g : S → Int → S × Bool)
    (h : Hop) (key : Int) (s0 : S) :
    stopsAfterFalse (traceOf g [h] key s0) = true := by
  cases h with
  | single f =>
    cases hf : f key with
    | none => simp [traceOf, mapLinks, hf, stopsAfterFalse]
    | some k =>
      cases hg : g s0 k with
      | mk s2 cont =>
        simp [traceOf, mapLinks, hf, hg, traceVisitor, stopsAfterFalse]
  | list f =>
    unfold traceOf mapLinks
    exact consumeKeys_trace_stops g (f key) s0 [] rfl
  | backlink f =>
    unfold traceOf mapLinks
    exact consumeKeys_trace_stops g (f key) s0 [] rfl

/-! ## Obj::add_int (obj.cpp, lines 855-908) -/

/-- Two's-complement bits of a signed 64-bit value (`uint64_t(a)`). -/
def toUInt64Bits (a : Int) : Nat := (a % 2 ^ 64).toNat

/-- Signed value of unsigned 64-bit bits (`int64_t(ua)`). -/
def toInt64Value (n : Nat) : Int :=
  if n % 2 ^ 64 < 2 ^ 63 then ((n % 2 ^ 64 : Nat) : Int)
  else ((n % 2 ^ 64 : Nat) : Int) - 2 ^ 64

/-- The `add_wrap` lambda of `Obj::add_int`: unsigned 64-bit addition of the
two's-complement bit patterns, reinterpreted as signed. -/
def addWrap (a b : Int) : Int := toInt64Value (toUInt64Bits a + toUInt64Bits b)

/-- `LogicError::illegal_combination`, thrown by `add_int` on a null value. -/
inductive AddIntError where
  | illegalCombination
deriving Repr, DecidableEq

/-- `Obj::add_int` on a nullable integer column: wrap-add onto a non-null
stored value; `throw LogicError{LogicError::illegal_combination}` when the
column currently holds null. -/
def addIntNullable (stored : Option Int) (value : Int) :
    Except AddIntError (Option Int) :=
  match stored with
  | some old => .ok (some (addWrap old value))
  | none => .error .illegalCombination

/-- `Obj::add_int` on a non-nullable integer column: always the wrap-add. -/
def addIntNonNullable (stored value : Int) : Int := addWrap stored value

/-- **C9 counterexample**: `add_int` on a nullable column holding null throws
`LogicError(illegal_combination)` — it is not the case that `add_int` never
raises. -/
theorem C9_add_int_null_throws :
    addIntNullable none 5 = .error .illegalCombination := rfl

/-- **C9** amended: for every non-null stored 64-bit value, `add_int` computes
the new value by two's-complement wrap-around (unsigned 64-bit addition of
the bit patterns, reinterpreted as signed — equal to the mathematical sum
reduced mod `2^64` into `[-2^63, 2^63)`) and returns normally, on nullable
and non-nullable columns alike; a nullable column holding null throws
`LogicError(illegal_combination)`. -/
theorem C9_add_int_wraps (a b : Int) (ha1 : -(2 ^ 63) ≤ a) (ha2 : a < 2 ^ 63)
    (hb1 : -(2 ^ 63) ≤ b) (hb2 : b < 2 ^ 63) :
    addIntNonNullable a b = (a + b + 2 ^ 63) % 2 ^ 64 - 2 ^ 63 ∧
    addIntNullable (some a) b = .ok (some ((a + b + 2 ^ 63) % 2 ^ 64 - 2 ^ 63)) ∧
    addIntNullable none b = .error .illegalCombination := by
  have hwrap : addWrap a b = (a + b + 2 ^ 63) % 2 ^ 64 - 2 ^ 63 := by
    unfold addWrap toUInt64Bits toInt64Value
    split <;> omega
  refine ⟨hwrap, ?_, rfl⟩
  show Except.ok (some (addWrap a b)) = Except.ok (some ((a + b + 2 ^ 63) % 2 ^ 64 - 2 ^ 63))
  rw [hwrap]

theorem C9_add_int_wraps_witness :
    (-(2 ^ 63) ≤ (2 ^ 63 - 1 : Int) ∧ (2 ^ 63 - 1 : Int) < 2 ^ 63 ∧
      -(2 ^ 63) ≤ (1 : Int) ∧ (1 : Int) < 2 ^ 63) ∧
    (addIntNonNullable (2 ^ 63 - 1) 1 =
        ((2 ^ 63 - 1) + 1 + 2 ^ 63) % 2 ^ 64 - 2 ^ 63 ∧
      addIntNullable (some (2 ^ 63 - 1)) 1 =
        .ok (some (((2 ^ 63 - 1) + 1 + 2 ^ 63) % 2 ^ 64 - 2 ^ 63)) ∧
      addIntNullable none 1 = .error .illegalCombination) :=
  ⟨⟨by decide, by decide, by decide, by decide⟩,
    C9_add_int_wraps (2 ^ 63 - 1) 1 (by decide) (by decide) (by decide) (by decide)⟩

end RealmQuery
